import Mathlib

/-!
Verification of the quiz-PDF processing core (`quiz_pdf_processor.py`):
line-to-question reconstruction, answer-emphasis inference, deduplication,
and the cross-document grading algorithm.

The Python code is shallowly embedded: strings are Lean `String`s, Python
`int`s are `Nat`/`Int`, float page coordinates are `ℚ` (their arithmetic in
the source is only compared against small integer constants), and the regex
patterns of the source are embedded as deterministic character-list matchers
that are faithful on newline-free input (every call site in the source feeds
them text whose whitespace has been collapsed to single spaces).
-/

set_option maxHeartbeats 1000000

namespace QuizPdf

/-- Characters accepted by the Python character class `[A-Za-zÀ-ỹ]` used by
`repair_fragmented_text`: ASCII letters plus the Unicode block U+00C0..U+1EF9
(which covers the Vietnamese alphabet). -/
def isRepairAlphaChar (c : Char) : Bool :=
  (65 ≤ c.toNat && c.toNat ≤ 90) || (97 ≤ c.toNat && c.toNat ≤ 122) ||
    (0xC0 ≤ c.toNat && c.toNat ≤ 0x1EF9)

/-- `re.fullmatch(r"[A-Za-zÀ-ỹ]+", token)`: nonempty and all characters in
the class. -/
def isAlphaToken (t : String) : Bool :=
  decide (t ≠ "") && t.data.all isRepairAlphaChar

/-- Helper for `pySplit`: walk the character list, `acc` holding the current
token's characters in reverse. -/
def pySplitAux : List Char → List Char → List String
  | [], acc => if acc = [] then [] else [String.mk acc.reverse]
  | c :: rest, acc =>
    if c.isWhitespace then
      if acc = [] then pySplitAux rest []
      else String.mk acc.reverse :: pySplitAux rest []
    else pySplitAux rest (c :: acc)

/-- Python `str.split()`: split on whitespace runs, producing no empty
pieces. -/
def pySplit (s : String) : List String :=
  pySplitAux s.data []

/-- The join condition of `flush_buffer` inside `repair_fragmented_text`:
every buffered token purely alphabetic, at least one of length 1, and average
length at most 2.0.  The Python float test `avg <= 2.0` is embedded exactly as
`sum ≤ 2 * count` (for small integer sums the float division is exact enough
that the two tests agree). -/
def joinableBuffer (buffer : List String) : Prop :=
  buffer.all isAlphaToken = true ∧
    buffer.any (fun t => t.length == 1) = true ∧
    (buffer.map String.length).sum ≤ 2 * buffer.length

instance (buffer : List String) : Decidable (joinableBuffer buffer) := by
  unfold joinableBuffer; infer_instance

/-- `flush_buffer` of `repair_fragmented_text`: emit the buffered run either
joined into one token or unchanged. -/
def flushBuffer (rebuilt : List String) (buffer : List String) : List String :=
  if buffer = [] then rebuilt
  else if joinableBuffer buffer then rebuilt ++ [String.join buffer]
  else rebuilt ++ buffer

/-- One iteration of the token loop of `repair_fragmented_text`; the state is
`(rebuilt, buffer)`. -/
def repairStep (st : List String × List String) (token : String) :
    List String × List String :=
  if isAlphaToken token then
    if token.length ≤ 2 then (st.1, st.2 ++ [token])
    else (flushBuffer st.1 st.2 ++ [token], [])
  else (flushBuffer st.1 st.2 ++ [token], [])

/-- `repair_fragmented_text`. -/
def repair_fragmented_text (text : String) : String :=
  let tokens := pySplit text
  if tokens.length < 3 then text
  else
    let st := tokens.foldl repairStep ([], [])
    String.intercalate " " (flushBuffer st.1 st.2)

/-- C7 counterexample: the claim asserts `["T","u","yển"]` joins into the
single token `"Tuyển"`, but the code only buffers tokens of length ≤ 2;
`"yển"` (3 letters) flushes the buffer, so the run `["T","u"]` joins to
`"Tu"` and `"yển"` stays separate, giving `"Tu yển"`. -/
theorem c7_counterexample :
    repair_fragmented_text "T u yển" = "Tu yển" ∧ ("Tu yển" : String) ≠ "Tuyển" := by
  exact ⟨by decide, by decide⟩

/-- C7 (amended): `["T","u","yển"]` becomes `"Tu yển"` (only the short run
`["T","u"]` joins; `"yển"` has 3 letters, exceeds the 2-letter buffer bound
and is emitted separately); `["Kỹ","thuật","Cơ"]` is left unchanged; and in
general a buffered run is joined into one token only if every buffered token
is purely alphabetic, at least one has length 1, and the average buffered
token length is at most 2.0. -/
theorem c7_fragment_repair_amended :
    repair_fragmented_text "T u yển" = "Tu yển" ∧
      repair_fragmented_text "Kỹ thuật Cơ" = "Kỹ thuật Cơ" ∧
      ∀ rebuilt buffer, ¬ joinableBuffer buffer →
        flushBuffer rebuilt buffer = rebuilt ++ buffer := by
  refine ⟨by decide, by decide, ?_⟩
  intro rebuilt buffer h
  unfold flushBuffer
  by_cases hb : buffer = []
  · subst hb; simp
  · rw [if_neg hb, if_neg h]

/-- Witness for the hypothesis of the amended C7 theorem: the non-joinable
buffer `["Kỹ","thuật"]` is emitted unchanged. -/
theorem c7_fragment_repair_amended_witness :
    ¬ joinableBuffer ["Kỹ", "thuật"] ∧
      flushBuffer [] ["Kỹ", "thuật"] = [] ++ ["Kỹ", "thuật"] :=
  ⟨by decide, c7_fragment_repair_amended.2.2 [] ["Kỹ", "thuật"] (by decide)⟩

/-- C10: when the whitespace-split token list of the input has fewer than 3
tokens, `repair_fragmented_text` returns the text unchanged. -/
theorem c10_short_input_unchanged (text : String)
    (h : (pySplit text).length < 3) :
    repair_fragmented_text text = text := by
  simp only [repair_fragmented_text, if_pos h]

/-- Witness for C10: `"T u"` splits into 2 tokens and is returned unchanged,
never joined. -/
theorem c10_short_input_unchanged_witness :
    (pySplit "T u").length < 3 ∧ repair_fragmented_text "T u" = "T u" :=
  ⟨by decide, c10_short_input_unchanged "T u" (by decide)⟩

/-- `OptionData`: one labeled option of a question.  Page coordinates are
embedded as `ℚ`, the PDF color integer as `Nat`. -/
structure OptionData where
  label : String
  text : String
  emphasized : Bool := false
  is_bold : Bool := false
  color_int : Nat := 0
  page_number : Int := -1
  x0 : ℚ := 0
  y0 : ℚ := 0
deriving DecidableEq

/-- `QuestionData`: a question with its options and inferred answer. -/
structure QuestionData where
  question : String := ""
  options : List OptionData := []
  answer_label : Option String := none
  page_number : Int := -1
  x0 : ℚ := 0
  y0 : ℚ := 0
deriving DecidableEq

/-- Number of occurrences of `x` in a list of colors. -/
def countNat (x : Nat) : List Nat → Nat
  | [] => 0
  | c :: rest => (if c = x then 1 else 0) + countNat x rest

/-- One comparison step of the most-common-value fold: keep `best` unless
`c` is strictly more frequent in `cs`. -/
def pickBest (cs : List Nat) (best c : Nat) : Nat :=
  if countNat best cs < countNat c cs then c else best

/-- `Counter(color_values).most_common(1)[0][0]`: the most frequent value;
`Counter` keys in first-occurrence order, and `most_common` sorts stably by
descending count, so ties go to the first value (in list order) to attain the
maximal count.  The fold replaces the best value only on a strictly larger
count, which yields exactly that element. -/
def mostCommonColor (cs : List Nat) : Nat :=
  cs.foldl (pickBest cs) (cs.headD 0)

/-- Maximal frequency of any value of the list. -/
def maxColorCount (cs : List Nat) : Nat :=
  (cs.map (fun c => countNat c cs)).foldr max 0

/-- Scan the list, returning the first element whose running count (within
the prefix scanned so far) reaches `m`. -/
def firstReachAux (m : Nat) : List Nat → List Nat → Option Nat
  | _, [] => none
  | seen, c :: rest =>
    if countNat c (seen ++ [c]) = m then some c
    else firstReachAux m (seen ++ [c]) rest

/-- The dominant color as C2's spec sentence words it: the most frequent
option color, ties broken by the first color to reach the maximum frequency
in option order. -/
def specDominantColor (cs : List Nat) : Nat :=
  (firstReachAux (maxColorCount cs) [] cs).getD 0

/-- `finalize_answer`: bold priority, then color minority against the
`Counter`-computed dominant color, else no answer.  The Python function
mutates the question in place; the embedding returns the updated record. -/
def finalize_answer (q : QuestionData) : QuestionData :=
  match (q.options.filter (fun o => o.is_bold)).map (fun o => o.label) with
  | [l] =>
    { q with
      answer_label := some l,
      options := q.options.map (fun o => { o with emphasized := o.label == l }) }
  | _ =>
    let color_values := q.options.map (fun o => o.color_int)
    let dominant_color := if color_values = [] then 0 else mostCommonColor color_values
    match (q.options.filter (fun o => decide (o.color_int ≠ dominant_color))).map
        (fun o => o.label) with
    | [l] =>
      { q with
        answer_label := some l,
        options := q.options.map (fun o => { o with emphasized := o.label == l }) }
    | _ =>
      { q with
        answer_label := none,
        options := q.options.map (fun o => { o with emphasized := false }) }

/-- The answer rule exactly as claim C2 words it: if exactly one option is
bold, its label; otherwise, with the dominant color computed by the
first-to-reach-the-maximum tie-break, if exactly one option's color differs
from the dominant color, its label; otherwise no answer. -/
def claimAnswerRule (opts : List OptionData) : Option String :=
  match opts.filter (fun o => o.is_bold) with
  | [o] => some o.label
  | _ =>
    let dominant := specDominantColor (opts.map (fun o => o.color_int))
    match opts.filter (fun o => decide (o.color_int ≠ dominant)) with
    | [o] => some o.label
    | _ => none

theorem countNat_append (x : Nat) (l1 l2 : List Nat) :
    countNat x (l1 ++ l2) = countNat x l1 + countNat x l2 := by
  induction l1 with
  | nil => simp [countNat]
  | cons c rest ih =>
    simp only [List.cons_append, countNat, List.append_eq]
    rw [ih]
    omega

theorem mem_of_countNat_pos {x : Nat} :
    ∀ {cs : List Nat}, 0 < countNat x cs → x ∈ cs := by
  intro cs
  induction cs with
  | nil => intro h; simp [countNat] at h
  | cons c rest ih =>
    intro h
    by_cases hc : c = x
    · exact hc ▸ List.mem_cons_self c rest
    · simp only [countNat, if_neg hc, Nat.zero_add] at h
      exact List.mem_cons_of_mem c (ih h)

theorem countNat_pair_le_length (x y : Nat) (hxy : y ≠ x) :
    ∀ cs : List Nat, countNat x cs + countNat y cs ≤ cs.length := by
  intro cs
  induction cs with
  | nil => simp [countNat]
  | cons c rest ih =>
    simp only [countNat, List.length_cons]
    split_ifs <;> omega

theorem countNat_le_pickBest (cs : List Nat) (best c : Nat) :
    countNat best cs ≤ countNat (pickBest cs best c) cs ∧
      countNat c cs ≤ countNat (pickBest cs best c) cs := by
  unfold pickBest
  split_ifs <;> constructor <;> omega

theorem countNat_init_le_foldl (cs : List Nat) :
    ∀ (l : List Nat) (init : Nat),
      countNat init cs ≤ countNat (l.foldl (pickBest cs) init) cs := by
  intro l
  induction l with
  | nil => intro init; simp
  | cons c rest ih =>
    intro init
    simp only [List.foldl]
    exact le_trans (countNat_le_pickBest cs init c).1 (ih (pickBest cs init c))

theorem countNat_mem_le_foldl (cs : List Nat) :
    ∀ (l : List Nat) (init c : Nat), c ∈ l →
      countNat c cs ≤ countNat (l.foldl (pickBest cs) init) cs := by
  intro l
  induction l with
  | nil => intro init c hc; simp at hc
  | cons a rest ih =>
    intro init c hc
    simp only [List.foldl]
    rcases List.mem_cons.mp hc with rfl | hmem
    · exact le_trans (countNat_le_pickBest cs init c).2 (countNat_init_le_foldl cs rest _)
    · exact ih _ _ hmem

/-- If one value is strictly more frequent than every other, the
`Counter.most_common` fold returns it. -/
theorem mostCommonColor_eq_of_unique_max (cs : List Nat) (x : Nat)
    (hmem : x ∈ cs) (hmax : ∀ y, y ≠ x → countNat y cs < countNat x cs) :
    mostCommonColor cs = x := by
  by_contra hne
  have h1 : countNat x cs ≤ countNat (mostCommonColor cs) cs :=
    countNat_mem_le_foldl cs cs (cs.headD 0) x hmem
  have h2 := hmax (mostCommonColor cs) hne
  omega

theorem mostCommon_of_count_three (x : Nat) (cs : List Nat) (hlen : cs.length = 4)
    (h : countNat x cs = 3) : mostCommonColor cs = x := by
  apply mostCommonColor_eq_of_unique_max cs x (mem_of_countNat_pos (by omega))
  intro y hy
  have := countNat_pair_le_length x y hy cs
  omega

theorem le_foldr_max : ∀ (l : List Nat), ∀ x ∈ l, x ≤ l.foldr max 0 := by
  intro l
  induction l with
  | nil => intro x hx; simp at hx
  | cons a rest ih =>
    intro x hx
    simp only [List.foldr]
    rcases List.mem_cons.mp hx with rfl | hmem
    · exact le_max_left _ _
    · exact le_trans (ih x hmem) (le_max_right _ _)

theorem foldr_max_le : ∀ (l : List Nat) (b : Nat), (∀ x ∈ l, x ≤ b) →
    l.foldr max 0 ≤ b := by
  intro l
  induction l with
  | nil => intro b _; exact Nat.zero_le b
  | cons a rest ih =>
    intro b h
    simp only [List.foldr]
    exact max_le (h a (List.mem_cons_self a rest))
      (ih b (fun x hx => h x (List.mem_cons_of_mem a hx)))

/-- If the running count of `x` has not yet reached `m`, but its total count
is exactly `m` and no other value ever has `m` occurrences, then the
first-to-reach scan returns `x`. -/
theorem firstReachAux_eq_some (m x : Nat) :
    ∀ (rest seen : List Nat),
      countNat x (seen ++ rest) = m →
      (∀ y, y ≠ x → countNat y (seen ++ rest) < m) →
      countNat x seen < m →
      firstReachAux m seen rest = some x := by
  intro rest
  induction rest with
  | nil =>
    intro seen htot _ hlt
    rw [List.append_nil] at htot
    exact absurd htot (Nat.ne_of_lt hlt)
  | cons c rest' ih =>
    intro seen htot hothers hlt
    simp only [firstReachAux]
    by_cases hcx : c = x
    · subst hcx
      by_cases hreach : countNat c (seen ++ [c]) = m
      · rw [if_pos hreach]
      · rw [if_neg hreach]
        apply ih (seen ++ [c])
        · rw [List.append_assoc]; exact htot
        · intro y hy; rw [List.append_assoc]; exact hothers y hy
        · have h1 := countNat_append c seen [c]
          have h2 := countNat_append c seen (c :: rest')
          simp [countNat] at h1 h2
          omega
    · have hcond : countNat c (seen ++ [c]) < m := by
        have h1 := countNat_append c seen [c]
        have h2 := countNat_append c seen (c :: rest')
        have h3 := hothers c hcx
        simp [countNat] at h1 h2
        omega
      rw [if_neg (Nat.ne_of_lt hcond)]
      apply ih (seen ++ [c])
      · rw [List.append_assoc]; exact htot
      · intro y hy; rw [List.append_assoc]; exact hothers y hy
      · have h1 := countNat_append x seen [c]
        simp [countNat, hcx] at h1
        omega

theorem specDominant_of_count_three (x : Nat) (cs : List Nat) (hlen : cs.length = 4)
    (h : countNat x cs = 3) : specDominantColor cs = x := by
  have hmem : x ∈ cs := mem_of_countNat_pos (by omega)
  have hsmall : ∀ y, y ≠ x → countNat y cs < 3 := by
    intro y hy
    have := countNat_pair_le_length x y hy cs
    omega
  have hmax : maxColorCount cs = 3 := by
    apply le_antisymm
    · apply foldr_max_le
      intro v hv
      rcases List.mem_map.mp hv with ⟨c, hc, rfl⟩
      by_cases hcx : c = x
      · subst hcx; omega
      · exact le_of_lt (hsmall c hcx)
    · have hin : countNat x cs ∈ cs.map (fun c => countNat c cs) :=
        List.mem_map_of_mem (fun c => countNat c cs) hmem
      have := le_foldr_max (cs.map (fun c => countNat c cs)) (countNat x cs) hin
      unfold maxColorCount
      omega
  unfold specDominantColor
  rw [hmax, firstReachAux_eq_some 3 x cs [] (by simpa using h)
    (by intro y hy; simpa using hsmall y hy) (by simp [countNat])]
  rfl

theorem count_three_of_filter_one (d : Nat) (o1 o2 o3 o4 : OptionData)
    (h : ([o1, o2, o3, o4].filter (fun o => decide (o.color_int ≠ d))).length = 1) :
    countNat d ([o1, o2, o3, o4].map (fun o => o.color_int)) = 3 := by
  by_cases h1 : o1.color_int = d <;> by_cases h2 : o2.color_int = d <;>
    by_cases h3 : o3.color_int = d <;> by_cases h4 : o4.color_int = d <;>
      simp_all [countNat, List.filter]

/-- C2: for every finalized 4-option question, `finalize_answer` sets
`answer_label` by the claimed priority: a unique bold option wins; otherwise
a unique option whose color differs from the dominant color (most frequent,
ties broken by the first color to reach the maximum frequency in option
order, neutral color 0 counted like any other) wins; otherwise the answer is
`none`. -/
theorem c2_finalize_answer_rule (q : QuestionData) (o1 o2 o3 o4 : OptionData)
    (h : q.options = [o1, o2, o3, o4]) :
    (finalize_answer q).answer_label = claimAnswerRule q.options := by
  simp only [finalize_answer, claimAnswerRule, h]
  rcases hfb : [o1, o2, o3, o4].filter (fun o => o.is_bold) with _ | ⟨b0, _ | ⟨b1, bt⟩⟩ <;>
    simp only [hfb, List.map_cons, List.map_nil] <;>
    simp only [List.cons_ne_nil, ite_false, if_neg]
  case nil =>
    rcases hfc : [o1, o2, o3, o4].filter
        (fun o => decide (o.color_int ≠
          mostCommonColor [o1.color_int, o2.color_int, o3.color_int, o4.color_int])) with
      _ | ⟨w, _ | ⟨w2, wt⟩⟩
    · rcases hfs : [o1, o2, o3, o4].filter
          (fun o => decide (o.color_int ≠
            specDominantColor [o1.color_int, o2.color_int, o3.color_int, o4.color_int])) with
        _ | ⟨v, _ | ⟨v2, vt⟩⟩
      · simp only [hfc, hfs, List.map_nil]
      · exfalso
        have h3 := count_three_of_filter_one
          (specDominantColor [o1.color_int, o2.color_int, o3.color_int, o4.color_int])
          o1 o2 o3 o4 (by rw [hfs]; rfl)
        simp only [List.map_cons, List.map_nil] at h3
        have hmc := mostCommon_of_count_three _
          [o1.color_int, o2.color_int, o3.color_int, o4.color_int] rfl h3
        simp only [hmc] at hfc
        rw [hfc] at hfs
        simp at hfs
      · simp only [hfc, hfs, List.map_nil]
    · have h3 := count_three_of_filter_one
        (mostCommonColor [o1.color_int, o2.color_int, o3.color_int, o4.color_int])
        o1 o2 o3 o4 (by rw [hfc]; rfl)
      simp only [List.map_cons, List.map_nil] at h3
      have hds := specDominant_of_count_three _
        [o1.color_int, o2.color_int, o3.color_int, o4.color_int] rfl h3
      simp only [hds, hfc, List.map_cons, List.map_nil]
    · rcases hfs : [o1, o2, o3, o4].filter
          (fun o => decide (o.color_int ≠
            specDominantColor [o1.color_int, o2.color_int, o3.color_int, o4.color_int])) with
        _ | ⟨v, _ | ⟨v2, vt⟩⟩
      · simp only [hfc, hfs, List.map_cons, List.map_nil]
      · exfalso
        have h3 := count_three_of_filter_one
          (specDominantColor [o1.color_int, o2.color_int, o3.color_int, o4.color_int])
          o1 o2 o3 o4 (by rw [hfs]; rfl)
        simp only [List.map_cons, List.map_nil] at h3
        have hmc := mostCommon_of_count_three _
          [o1.color_int, o2.color_int, o3.color_int, o4.color_int] rfl h3
        simp only [hmc] at hfc
        rw [hfc] at hfs
        simp at hfs
      · simp only [hfc, hfs, List.map_cons, List.map_nil]
  case cons.cons =>
    rcases hfc : [o1, o2, o3, o4].filter
        (fun o => decide (o.color_int ≠
          mostCommonColor [o1.color_int, o2.color_int, o3.color_int, o4.color_int])) with
      _ | ⟨w, _ | ⟨w2, wt⟩⟩
    · rcases hfs : [o1, o2, o3, o4].filter
          (fun o => decide (o.color_int ≠
            specDominantColor [o1.color_int, o2.color_int, o3.color_int, o4.color_int])) with
        _ | ⟨v, _ | ⟨v2, vt⟩⟩
      · simp only [hfc, hfs, List.map_nil]
      · exfalso
        have h3 := count_three_of_filter_one
          (specDominantColor [o1.color_int, o2.color_int, o3.color_int, o4.color_int])
          o1 o2 o3 o4 (by rw [hfs]; rfl)
        simp only [List.map_cons, List.map_nil] at h3
        have hmc := mostCommon_of_count_three _
          [o1.color_int, o2.color_int, o3.color_int, o4.color_int] rfl h3
        simp only [hmc] at hfc
        rw [hfc] at hfs
        simp at hfs
      · simp only [hfc, hfs, List.map_nil]
    · have h3 := count_three_of_filter_one
        (mostCommonColor [o1.color_int, o2.color_int, o3.color_int, o4.color_int])
        o1 o2 o3 o4 (by rw [hfc]; rfl)
      simp only [List.map_cons, List.map_nil] at h3
      have hds := specDominant_of_count_three _
        [o1.color_int, o2.color_int, o3.color_int, o4.color_int] rfl h3
      simp only [hds, hfc, List.map_cons, List.map_nil]
    · rcases hfs : [o1, o2, o3, o4].filter
          (fun o => decide (o.color_int ≠
            specDominantColor [o1.color_int, o2.color_int, o3.color_int, o4.color_int])) with
        _ | ⟨v, _ | ⟨v2, vt⟩⟩
      · simp only [hfc, hfs, List.map_cons, List.map_nil]
      · exfalso
        have h3 := count_three_of_filter_one
          (specDominantColor [o1.color_int, o2.color_int, o3.color_int, o4.color_int])
          o1 o2 o3 o4 (by rw [hfs]; rfl)
        simp only [List.map_cons, List.map_nil] at h3
        have hmc := mostCommon_of_count_three _
          [o1.color_int, o2.color_int, o3.color_int, o4.color_int] rfl h3
        simp only [hmc] at hfc
        rw [hfc] at hfs
        simp at hfs
      · simp only [hfc, hfs, List.map_cons, List.map_nil]

/-- Concrete 4-option question for the C2 witness: colors `[0,0,0,5]`,
no bold option. -/
def c2WitnessOptions : List OptionData :=
  [{ label := "A", text := "a" }, { label := "B", text := "b" },
    { label := "C", text := "c" }, { label := "D", text := "d", color_int := 5 }]

/-- The question record holding `c2WitnessOptions`. -/
def c2WitnessQuestion : QuestionData :=
  { question := "q", options := c2WitnessOptions }

/-- Witness for C2: on the spec's color-minority example (colors `[0,0,0,5]`,
no bold), the rule applies and infers answer `D`. -/
theorem c2_finalize_answer_rule_witness :
    (finalize_answer c2WitnessQuestion).answer_label =
        claimAnswerRule c2WitnessQuestion.options ∧
      (finalize_answer c2WitnessQuestion).answer_label = some "D" :=
  ⟨c2_finalize_answer_rule c2WitnessQuestion _ _ _ _ rfl, by decide⟩

/-- One step of the whitespace-run collapse of `re.sub(r"\s+", " ", s)`:
the flag records whether the previous character was inside a whitespace
run. -/
def collapseWsAux : Bool → List Char → List Char
  | _, [] => []
  | inRun, c :: rest =>
    if c.isWhitespace then
      if inRun then collapseWsAux true rest
      else ' ' :: collapseWsAux true rest
    else c :: collapseWsAux false rest

/-- `re.sub(r"\s+", " ", s)`: every whitespace run becomes one space. -/
def collapseWs (s : String) : String :=
  String.mk (collapseWsAux false s.data)

/-- Python `str.strip()`: drop whitespace from both ends. -/
def pyStrip (s : String) : String :=
  String.mk (((s.data.dropWhile Char.isWhitespace).reverse.dropWhile
    Char.isWhitespace).reverse)

/-- Python `str.lower()`, restricted to the character ranges the quiz
documents use: ASCII, Latin-1 letters, and the precomposed Vietnamese
letters (Ă Đ Ĩ Ũ Ơ Ư and the U+1EA0–U+1EF9 block, where the uppercase
letter is the even code point and its lowercase is the next one). -/
def pyLowerChar (c : Char) : Char :=
  let v := c.toNat
  if 65 ≤ v && v ≤ 90 then Char.ofNat (v + 32)
  else if (0xC0 ≤ v && v ≤ 0xDE) && v ≠ 0xD7 then Char.ofNat (v + 32)
  else if v == 0x102 || v == 0x110 || v == 0x128 ||
      v == 0x168 || v == 0x1A0 || v == 0x1AF then Char.ofNat (v + 1)
  else if (0x1EA0 ≤ v && v ≤ 0x1EF9) && v % 2 == 0 then Char.ofNat (v + 1)
  else c

/-- Python `str.lower()` on a whole string. -/
def pyLower (s : String) : String :=
  String.mk (s.data.map pyLowerChar)

/-- Whitespace-collapsed, stripped, case-folded text — the normalization
`re.sub(r"\s+", " ", t).strip().lower()` used by the dedup key and the
content-pairing key. -/
def normalizeForKey (s : String) : String :=
  pyLower (pyStrip (collapseWs s))

/-- The deduplication key of `deduplicate_questions`: normalized question
text plus the ordered `(label, normalized option text)` tuples.  It never
reads `answer_label`. -/
def dedupKey (q : QuestionData) : String × List (String × String) :=
  (normalizeForKey q.question,
    q.options.map (fun o => (o.label, normalizeForKey o.text)))

/-- The loop of `deduplicate_questions`: `seen` is the set of keys already
emitted (the Python `set`, embedded as a list). -/
def dedupAux : List (String × List (String × String)) → List QuestionData →
    List QuestionData
  | _, [] => []
  | seen, q :: rest =>
    if dedupKey q ∈ seen then dedupAux seen rest
    else q :: dedupAux (dedupKey q :: seen) rest

/-- `deduplicate_questions`. -/
def deduplicate_questions (qs : List QuestionData) : List QuestionData :=
  dedupAux [] qs

/-- The deduplication as the spec words it: walk the list carrying all prior
questions, and keep a question exactly when no earlier question of the input
has the same key. -/
def specDedupAux : List QuestionData → List QuestionData → List QuestionData
  | _, [] => []
  | prior, q :: rest =>
    if ∃ p ∈ prior, dedupKey p = dedupKey q then specDedupAux (prior ++ [q]) rest
    else q :: specDedupAux (prior ++ [q]) rest

/-- First-occurrence deduplication, per the spec's wording. -/
def specFirstOccurrenceDedup (qs : List QuestionData) : List QuestionData :=
  specDedupAux [] qs

theorem dedupAux_eq_specDedupAux :
    ∀ (qs : List QuestionData) (seen : List (String × List (String × String)))
      (prior : List QuestionData),
      (∀ k, k ∈ seen ↔ ∃ p ∈ prior, dedupKey p = k) →
      dedupAux seen qs = specDedupAux prior qs := by
  intro qs
  induction qs with
  | nil => intro seen prior _; rfl
  | cons q rest ih =>
    intro seen prior hinv
    simp only [dedupAux, specDedupAux]
    by_cases hq : dedupKey q ∈ seen
    · rw [if_pos hq, if_pos ((hinv (dedupKey q)).mp hq)]
      apply ih
      intro k
      constructor
      · intro hk
        rcases (hinv k).mp hk with ⟨p, hp, hpk⟩
        exact ⟨p, List.mem_append_left _ hp, hpk⟩
      · intro hk
        rcases hk with ⟨p, hp, hpk⟩
        rcases List.mem_append.mp hp with hp1 | hp2
        · exact (hinv k).mpr ⟨p, hp1, hpk⟩
        · have : p = q := List.mem_singleton.mp hp2
          subst this
          exact hpk ▸ hq
    · rw [if_neg hq, if_neg (fun hex => hq ((hinv (dedupKey q)).mpr hex))]
      congr 1
      apply ih
      intro k
      constructor
      · intro hk
        rcases List.mem_cons.mp hk with rfl | hk2
        · exact ⟨q, List.mem_append_right _ (List.mem_singleton.mpr rfl), rfl⟩
        · rcases (hinv k).mp hk2 with ⟨p, hp, hpk⟩
          exact ⟨p, List.mem_append_left _ hp, hpk⟩
      · intro hk
        rcases hk with ⟨p, hp, hpk⟩
        rcases List.mem_append.mp hp with hp1 | hp2
        · exact List.mem_cons_of_mem _ ((hinv k).mpr ⟨p, hp1, hpk⟩)
        · have : p = q := List.mem_singleton.mp hp2
          subst this
          exact hpk ▸ List.mem_cons_self _ _

theorem dedupAux_pairwise_and_not_seen :
    ∀ (qs : List QuestionData) (seen : List (String × List (String × String))),
      List.Pairwise (fun a b => dedupKey a ≠ dedupKey b) (dedupAux seen qs) ∧
        ∀ q ∈ dedupAux seen qs, dedupKey q ∉ seen := by
  intro qs
  induction qs with
  | nil => intro seen; exact ⟨List.Pairwise.nil, by intro q hq; simp [dedupAux] at hq⟩
  | cons q rest ih =>
    intro seen
    simp only [dedupAux]
    by_cases hq : dedupKey q ∈ seen
    · rw [if_pos hq]; exact ih seen
    · rw [if_neg hq]
      rcases ih (dedupKey q :: seen) with ⟨hpw, hns⟩
      refine ⟨List.Pairwise.cons ?_ hpw, ?_⟩
      · intro b hb
        have := hns b hb
        intro heq
        exact this (heq ▸ List.mem_cons_self _ _)
      · intro p hp
        rcases List.mem_cons.mp hp with rfl | hp2
        · exact hq
        · intro hpseen
          exact hns p hp2 (List.mem_cons_of_mem _ hpseen)

theorem dedupAux_of_pairwise :
    ∀ (qs : List QuestionData) (seen : List (String × List (String × String))),
      (∀ q ∈ qs, dedupKey q ∉ seen) →
      List.Pairwise (fun a b => dedupKey a ≠ dedupKey b) qs →
      dedupAux seen qs = qs := by
  intro qs
  induction qs with
  | nil => intro seen _ _; rfl
  | cons q rest ih =>
    intro seen hns hpw
    simp only [dedupAux]
    rw [if_neg (hns q (List.mem_cons_self _ _))]
    congr 1
    apply ih
    · intro p hp
      intro hpseen
      rcases List.mem_cons.mp hpseen with heq | hseen
      · exact (List.rel_of_pairwise_cons hpw hp) heq.symm
      · exact hns p (List.mem_cons_of_mem _ hp) hseen
    · exact hpw.of_cons

/-- C9: deduplication is idempotent, keeps the first occurrence of each
duplicate group in input order (keying on whitespace-collapsed case-folded
question text plus the ordered `(label, normalized option text)` tuples),
and the key ignores `answer_label`. -/
theorem c9_dedup_idempotent_first_occurrence (qs : List QuestionData) :
    deduplicate_questions (deduplicate_questions qs) = deduplicate_questions qs ∧
      deduplicate_questions qs = specFirstOccurrenceDedup qs ∧
      ∀ (q : QuestionData) (a : Option String),
        dedupKey { q with answer_label := a } = dedupKey q := by
  refine ⟨?_, ?_, fun q a => rfl⟩
  · rcases dedupAux_pairwise_and_not_seen qs [] with ⟨hpw, _⟩
    exact dedupAux_of_pairwise (dedupAux [] qs) [] (by intro p _ hp; simp at hp) hpw
  · exact dedupAux_eq_specDedupAux qs [] [] (by intro k; simp)

/-- `QuizOptionState`: normalized per-option view used by grading.
`bg_highlight` is only ever tested for presence in the source, so it is
embedded as `Option Unit`. -/
structure QuizOptionState where
  label : String
  text : String
  highlighted : Bool := false
  is_bold : Bool := false
  color_rgb : Option (Nat × Nat × Nat) := none
  bg_highlight : Option Unit := none
deriving DecidableEq

/-- `QuizQuestionState`: the Python `options` dict (insertion-ordered,
unique keys) is embedded as an association list. -/
structure QuizQuestionState where
  question : String
  options : List (String × QuizOptionState) := []
  highlighted_labels : List String := []
deriving DecidableEq

/-- The default question state used for (unreachable) out-of-range list
indexing in the grading fold. -/
def emptyQuestionState : QuizQuestionState :=
  { question := "" }

/-- `pick_single_label`. -/
def pick_single_label (labels : List String) : Option String :=
  match labels with
  | [l] => some l
  | _ => none

/-- `_count_single_highlighted`. -/
def countSingleHighlighted (qs : List QuizQuestionState) : Nat :=
  (qs.filter (fun q => (pick_single_label q.highlighted_labels).isSome)).length

/-- First character is whitespace. -/
def hasWsHead : List Char → Bool
  | c :: _ => c.isWhitespace
  | [] => false

/-- Case-insensitive literal match (regex `re.IGNORECASE`): consume the
pattern characters, returning the remaining input. -/
def matchCaseInsensitive : List Char → List Char → Option (List Char)
  | [], rest => some rest
  | _ :: _, [] => none
  | p :: ps, c :: cs =>
    if pyLowerChar c = pyLowerChar p then matchCaseInsensitive ps cs else none

/-- Regex `\s*`. -/
def dropWs (cs : List Char) : List Char :=
  cs.dropWhile Char.isWhitespace

/-- Regex `\d+` (greedy; digits in these documents are ASCII). -/
def matchDigits : List Char → Option (List Char)
  | [] => none
  | c :: rest => if c.isDigit then some (rest.dropWhile Char.isDigit) else none

/-- Regex `[...]?` for a punctuation class: consume one of the characters if
present.  Greedy consumption is faithful here because the pattern after the
option never matches a punctuation character, so backtracking cannot help. -/
def consumeOptPunct (punct : List Char) (cs : List Char) : List Char :=
  match cs with
  | c :: rest => if c ∈ punct then rest else c :: rest
  | [] => []

/-- Branch `Câu\s*\d+[\.:\)]?` of the question-number pattern. -/
def branchCau (cs : List Char) : Option (List Char) :=
  (matchCaseInsensitive ['c', 'â', 'u'] cs).bind (fun r =>
    (matchDigits (dropWs r)).map (fun r2 => consumeOptPunct ['.', ':', ')'] r2))

/-- Branch `Question\s*\d+[\.:\)]?` of the question-number pattern. -/
def branchQuestionWord (cs : List Char) : Option (List Char) :=
  (matchCaseInsensitive ['q', 'u', 'e', 's', 't', 'i', 'o', 'n'] cs).bind (fun r =>
    (matchDigits (dropWs r)).map (fun r2 => consumeOptPunct ['.', ':', ')'] r2))

/-- Branch `\d+[\.)]` of the question-number pattern (the punctuation is
mandatory here). -/
def branchBareNumber (cs : List Char) : Option (List Char) :=
  (matchDigits cs).bind (fun r =>
    match r with
    | c :: rest => if c = '.' ∨ c = ')' then some rest else none
    | [] => none)

/-- A branch result also needs the trailing `\s+` of `QUESTION_PATTERN`. -/
def checkQuestionBranch : Option (List Char) → Bool
  | some rest => hasWsHead rest
  | none => false

/-- `QUESTION_PATTERN.match(text)` as a Boolean: one of the three
alternatives followed by at least one whitespace character.  The three
alternatives start with a `c`, a `q` and a digit respectively, so at most
one can apply and the alternation order is immaterial. -/
def question_pattern_match (s : String) : Bool :=
  checkQuestionBranch (branchCau s.data) ||
    checkQuestionBranch (branchQuestionWord s.data) ||
    checkQuestionBranch (branchBareNumber s.data)

/-- The leading-question-number strip of `normalize_question_text` (the
`re.sub` with the same three alternatives followed by `\s*`). -/
def stripQuestionNumberChars (cs : List Char) : List Char :=
  match branchCau cs with
  | some r => dropWs r
  | none =>
    match branchQuestionWord cs with
    | some r => dropWs r
    | none =>
      match branchBareNumber cs with
      | some r => dropWs r
      | none => cs

/-- `normalize_question_text`. -/
def normalize_question_text (s : String) : String :=
  pyStrip (String.mk (stripQuestionNumberChars s.data))

/-- `normalize_question_key`. -/
def normalize_question_key (s : String) : String :=
  normalizeForKey (normalize_question_text s)

/-- `answer_indices_by_key.setdefault(key, []).append(index)` on the
association-list embedding of the Python dict. -/
def alAppend (m : List (String × List Nat)) (k : String) (i : Nat) :
    List (String × List Nat) :=
  match m with
  | [] => [(k, [i])]
  | (k0, l0) :: rest =>
    if k0 = k then (k0, l0 ++ [i]) :: rest else (k0, l0) :: alAppend rest k i

/-- Dict lookup on the association list. -/
def alLookup (m : List (String × List Nat)) (k : String) : Option (List Nat) :=
  match m with
  | [] => none
  | (k0, l0) :: rest => if k0 = k then some l0 else alLookup rest k

/-- Replace the FIFO queue stored under an existing key (the effect of the
Python in-place `candidates.pop(0)`). -/
def alSetQueue (m : List (String × List Nat)) (k : String) (l : List Nat) :
    List (String × List Nat) :=
  match m with
  | [] => []
  | (k0, l0) :: rest =>
    if k0 = k then (k0, l) :: rest else (k0, l0) :: alSetQueue rest k l

/-- The key-index multimap built from the answer sequence. -/
def buildAnswerIndex (keys : List QuizQuestionState) : List (String × List Nat) :=
  keys.enum.foldl (fun m p => alAppend m (normalize_question_key p.2.question) p.1) []

/-- The content-pairing loop: each submission question pops the first
unconsumed answer index stored under its normalized key; questions with no
remaining candidate stay unpaired. -/
def contentPairsAux : List (String × List Nat) → List (Nat × QuizQuestionState) →
    List (Nat × Nat)
  | _, [] => []
  | m, (si, q) :: rest =>
    match alLookup m (normalize_question_key q.question) with
    | none => contentPairsAux m rest
    | some [] => contentPairsAux m rest
    | some (ai :: more) =>
      (si, ai) :: contentPairsAux (alSetQueue m (normalize_question_key q.question) more) rest

/-- Content-based pairing of `grade_quiz_files`. -/
def contentPairs (subs keys : List QuizQuestionState) : List (Nat × Nat) :=
  contentPairsAux (buildAnswerIndex keys) subs.enum

/-- Pair formation of `grade_quiz_files`: content pairs, falling back to
strict positional pairing when fewer than
`max(1, int(len(submission) * 0.5))` content pairs were found.
`int(n * 0.5)` is exactly `n / 2` in `ℕ` (0.5 is a dyadic float). -/
def formedPairs (subs keys : List QuizQuestionState) : List (Nat × Nat) :=
  let cp := contentPairs subs keys
  if cp.length < max 1 (subs.length / 2) then
    (List.range (min subs.length keys.length)).map (fun i => (i, i))
  else cp

/-- The role-swap test of `grade_quiz_files`.  `int(compared * 0.6)` equals
`3 * compared / 5` in `ℕ` for every feasible length: the double `0.6` is
`3/5 - 0.2·2⁻⁵³`, and for `n < 2⁵⁰` the rounded product `n * 0.6` always has
the same integer part as `3n/5`. -/
def swapDecision (subs keys : List QuizQuestionState) : Bool :=
  let compared0 := min subs.length keys.length
  if 0 < compared0 then
    decide (countSingleHighlighted keys = 0 ∧
      max 3 (3 * compared0 / 5) ≤ countSingleHighlighted subs)
  else false

/-- The sequences actually graded, after the possible role swap:
`(submission', answer')`. -/
def postSwap (subs keys : List QuizQuestionState) :
    List QuizQuestionState × List QuizQuestionState :=
  if swapDecision subs keys then (keys, subs) else (subs, keys)

/-- One per-pair record of the wrong/unanswered report lists. -/
structure GradeItem where
  index : Nat
  question_text : String
  selected_labels : List String
  correct_label : String
  option_states : List (String × QuizOptionState)
deriving DecidableEq

/-- Classification of one formed pair. -/
inductive PairOutcome where
  | skipped : PairOutcome
  | unanswered : GradeItem → PairOutcome
  | correctAnswer : PairOutcome
  | wrongAnswer : GradeItem → PairOutcome
deriving DecidableEq

/-- The merged per-label option view built for report items: the
submission's option state where available, else the answer's option with the
emphasis cleared. -/
def mergedOptionStates (student answer : QuizQuestionState) :
    List (String × QuizOptionState) :=
  ["A", "B", "C", "D"].foldl (fun m label =>
    match student.options.lookup label with
    | some so => m ++ [(label, so)]
    | none =>
      match answer.options.lookup label with
      | some ao => m ++ [(label,
          { label := ao.label, text := ao.text, highlighted := false,
            is_bold := false, color_rgb := none })]
      | none => m) []

/-- The per-pair classification of the `grade_quiz_files` loop body
(`idx` is the 1-based submission index recorded in report items). -/
def classifyPair (idx : Nat) (student answer : QuizQuestionState) : PairOutcome :=
  let correct_label := pick_single_label answer.highlighted_labels
  let selected_labels := student.highlighted_labels
  let selected_label := pick_single_label selected_labels
  match correct_label with
  | none => .skipped
  | some c =>
    if selected_labels = [] then
      .unanswered
        { index := idx, question_text := normalize_question_text student.question,
          selected_labels := [], correct_label := c,
          option_states := mergedOptionStates student answer }
    else if selected_label = some c then .correctAnswer
    else
      .wrongAnswer
        { index := idx, question_text := normalize_question_text student.question,
          selected_labels := selected_labels, correct_label := c,
          option_states := mergedOptionStates student answer }

/-- The mutable counters and lists of the grading loop. -/
structure GradeTally where
  correct_count : Nat := 0
  wrong_count : Nat := 0
  unanswered_count : Nat := 0
  skipped_count : Nat := 0
  correct_questions : List Nat := []
  wrong_questions : List Nat := []
  unanswered_questions : List Nat := []
  skipped_questions : List Nat := []
  wrong_items : List GradeItem := []
  unanswered_items : List GradeItem := []
deriving DecidableEq

/-- Record one classified pair into the tally (the body of the grading
loop, after classification). -/
def applyOutcome (acc : GradeTally) (pair : Nat × Nat) :
    PairOutcome → GradeTally
  | .skipped =>
    { acc with skipped_count := acc.skipped_count + 1,
               skipped_questions := acc.skipped_questions ++ [pair.1 + 1] }
  | .unanswered item =>
    { acc with unanswered_count := acc.unanswered_count + 1,
               unanswered_questions := acc.unanswered_questions ++ [pair.1 + 1],
               unanswered_items := acc.unanswered_items ++ [item] }
  | .correctAnswer =>
    { acc with correct_count := acc.correct_count + 1,
               correct_questions := acc.correct_questions ++ [pair.1 + 1] }
  | .wrongAnswer item =>
    { acc with wrong_count := acc.wrong_count + 1,
               wrong_questions := acc.wrong_questions ++ [pair.1 + 1],
               wrong_items := acc.wrong_items ++ [item] }

/-- One iteration of the grading loop over a formed pair. -/
def tallyStep (subs keys : List QuizQuestionState) (acc : GradeTally)
    (pair : Nat × Nat) : GradeTally :=
  applyOutcome acc pair
    (classifyPair (pair.1 + 1) (subs.getD pair.1 emptyQuestionState)
      (keys.getD pair.2 emptyQuestionState))

/-- `GradingResult` without its file-name and report-path fields (those are
pure I/O bookkeeping). -/
structure GradingResult where
  compared_questions : Nat
  correct_count : Nat
  wrong_count : Nat
  unanswered_count : Nat
  answered_count : Nat
  skipped_count : Nat
  correct_questions : List Nat
  wrong_questions : List Nat
  unanswered_questions : List Nat
  skipped_questions : List Nat
  auto_swapped_files : Bool
  wrong_items : List GradeItem
  unanswered_items : List GradeItem
deriving DecidableEq

/-- The algorithmic core of `grade_quiz_files`, from the two parsed question
sequences to the grading result (file existence checks, parsing and report
writing are the external I/O around it). -/
def grade_quiz_files (submission answer : List QuizQuestionState) : GradingResult :=
  let swapped := swapDecision submission answer
  let p := postSwap submission answer
  let pairs := formedPairs p.1 p.2
  let tally := pairs.foldl (tallyStep p.1 p.2) {}
  { compared_questions := pairs.length,
    correct_count := tally.correct_count,
    wrong_count := tally.wrong_count,
    unanswered_count := tally.unanswered_count,
    answered_count := tally.correct_count + tally.wrong_count,
    skipped_count := tally.skipped_count,
    correct_questions := tally.correct_questions,
    wrong_questions := tally.wrong_questions,
    unanswered_questions := tally.unanswered_questions,
    skipped_questions := tally.skipped_questions,
    auto_swapped_files := swapped,
    wrong_items := tally.wrong_items,
    unanswered_items := tally.unanswered_items }

theorem tallyStep_counts (subs keys : List QuizQuestionState) (acc : GradeTally)
    (pair : Nat × Nat) :
    (tallyStep subs keys acc pair).correct_count +
        (tallyStep subs keys acc pair).wrong_count +
        (tallyStep subs keys acc pair).unanswered_count +
        (tallyStep subs keys acc pair).skipped_count =
      acc.correct_count + acc.wrong_count + acc.unanswered_count +
        acc.skipped_count + 1 := by
  unfold tallyStep
  rcases classifyPair (pair.1 + 1) (subs.getD pair.1 emptyQuestionState)
      (keys.getD pair.2 emptyQuestionState) with _ | item | _ | item <;>
    simp [applyOutcome] <;> omega

theorem foldl_tally_counts (subs keys : List QuizQuestionState) :
    ∀ (pairs : List (Nat × Nat)) (acc : GradeTally),
      (pairs.foldl (tallyStep subs keys) acc).correct_count +
          (pairs.foldl (tallyStep subs keys) acc).wrong_count +
          (pairs.foldl (tallyStep subs keys) acc).unanswered_count +
          (pairs.foldl (tallyStep subs keys) acc).skipped_count =
        acc.correct_count + acc.wrong_count + acc.unanswered_count +
          acc.skipped_count + pairs.length := by
  intro pairs
  induction pairs with
  | nil => intro acc; simp
  | cons p rest ih =>
    intro acc
    simp only [List.foldl, List.length_cons]
    rw [ih (tallyStep subs keys acc p)]
    have := tallyStep_counts subs keys acc p
    omega

/-- C6: every grading result satisfies
`compared = correct + wrong + unanswered + skipped` and
`answered = correct + wrong`. -/
theorem c6_grading_count_invariants (submission answer : List QuizQuestionState) :
    (grade_quiz_files submission answer).compared_questions =
        (grade_quiz_files submission answer).correct_count +
          (grade_quiz_files submission answer).wrong_count +
          (grade_quiz_files submission answer).unanswered_count +
          (grade_quiz_files submission answer).skipped_count ∧
      (grade_quiz_files submission answer).answered_count =
        (grade_quiz_files submission answer).correct_count +
          (grade_quiz_files submission answer).wrong_count := by
  constructor
  · simp only [grade_quiz_files]
    have := foldl_tally_counts (postSwap submission answer).1
      (postSwap submission answer).2
      (formedPairs (postSwap submission answer).1 (postSwap submission answer).2)
      {}
    simp only [GradeTally.mk.injEq] at this ⊢
    omega
  · rfl

/-- C3 (amended): the roles are swapped exactly when the overlap
`min(len(key), len(submission))` is positive, the key has no
single-highlighted question, and the submission has at least
`max(3, int(0.6 × overlap))` single-highlighted questions, where `int`
truncates (equal to `⌊3·overlap/5⌋`). -/
theorem c3_role_swap_amended (submission answer : List QuizQuestionState) :
    (grade_quiz_files submission answer).auto_swapped_files = true ↔
      (0 < min submission.length answer.length ∧
        countSingleHighlighted answer = 0 ∧
        max 3 (3 * min submission.length answer.length / 5) ≤
          countSingleHighlighted submission) := by
  simp only [grade_quiz_files, swapDecision]
  by_cases h : 0 < min submission.length answer.length
  · rw [if_pos h]
    simp [h]
  · rw [if_neg h]
    simp [h]

/-- A submission of three single-highlighted questions, used against an
empty key sequence for the C3 counterexample. -/
def c3Subs : List QuizQuestionState :=
  [{ question := "Câu 1: a", highlighted_labels := ["A"] },
    { question := "Câu 2: b", highlighted_labels := ["B"] },
    { question := "Câu 3: c", highlighted_labels := ["C"] }]

/-- C3 counterexample: with an empty key and a submission of 3
single-highlighted questions, the claim's condition holds —
`single(key) = 0` and `single(submission) = 3 ≥ max(3, 0.6 × 0) = 3` — yet
the code does not swap, because its `compared_questions > 0` guard (absent
from the claim) fails. -/
theorem c3_counterexample :
    countSingleHighlighted ([] : List QuizQuestionState) = 0 ∧
      countSingleHighlighted c3Subs = 3 ∧
      ((countSingleHighlighted c3Subs : ℚ) ≥
        max 3 ((0.6 : ℚ) * (min ([] : List QuizQuestionState).length c3Subs.length : ℚ))) ∧
      (grade_quiz_files c3Subs []).auto_swapped_files = false := by
  refine ⟨rfl, by decide, ?_, by decide⟩
  norm_num [c3Subs, countSingleHighlighted, pick_single_label]

/-- C4 (amended): whenever the content-pairing stage (run on the post-swap
sequences) produces fewer than `max(1, int(0.5 × len(submission)))` pairs,
pairing is strictly positional — pair `(i, i)` for every
`i < min(len(submission), len(key))` — and `compared_questions` equals that
minimum (which is symmetric, hence also the minimum of the original
lengths). -/
theorem c4_positional_fallback_amended (submission answer : List QuizQuestionState)
    (h : (contentPairs (postSwap submission answer).1 (postSwap submission answer).2).length <
      max 1 ((postSwap submission answer).1.length / 2)) :
    formedPairs (postSwap submission answer).1 (postSwap submission answer).2 =
      (List.range (min (postSwap submission answer).1.length
        (postSwap submission answer).2.length)).map (fun i => (i, i)) ∧
      (grade_quiz_files submission answer).compared_questions =
        min submission.length answer.length := by
  have hpairs : formedPairs (postSwap submission answer).1 (postSwap submission answer).2 =
      (List.range (min (postSwap submission answer).1.length
        (postSwap submission answer).2.length)).map (fun i => (i, i)) := by
    simp only [formedPairs]
    rw [if_pos h]
  refine ⟨hpairs, ?_⟩
  simp only [grade_quiz_files]
  rw [hpairs]
  simp only [List.length_map, List.length_range]
  unfold postSwap
  by_cases hs : swapDecision submission answer
  · rw [if_pos hs]
    exact Nat.min_comm _ _
  · rw [if_neg hs]

/-- Submission for the C4 witness. -/
def c4WitnessSubs : List QuizQuestionState :=
  [{ question := "Câu 1: x" }, { question := "Câu 2: y" }]

/-- Key for the C4 witness: its single question shares no content key with
the submission. -/
def c4WitnessKeys : List QuizQuestionState :=
  [{ question := "Câu 1: z" }]

/-- Witness for C4 (amended): with no content match at all, pairing falls
back to positional and `compared_questions = min(2, 1) = 1`. -/
theorem c4_positional_fallback_amended_witness :
    (contentPairs (postSwap c4WitnessSubs c4WitnessKeys).1
        (postSwap c4WitnessSubs c4WitnessKeys).2).length <
      max 1 ((postSwap c4WitnessSubs c4WitnessKeys).1.length / 2) ∧
      (grade_quiz_files c4WitnessSubs c4WitnessKeys).compared_questions =
        min c4WitnessSubs.length c4WitnessKeys.length :=
  ⟨by decide,
    (c4_positional_fallback_amended c4WitnessSubs c4WitnessKeys (by decide)).2⟩

/-- Submission for the C4 counterexample (three single-highlighted
questions so that no role swap interferes). -/
def c4cSubs : List QuizQuestionState :=
  [{ question := "Câu 1: alpha", highlighted_labels := ["A"] },
    { question := "Câu 2: beta", highlighted_labels := ["A"] },
    { question := "Câu 3: gamma", highlighted_labels := ["A"] }]

/-- Key for the C4 counterexample: only its first question matches the
submission by content. -/
def c4cKeys : List QuizQuestionState :=
  [{ question := "Câu 7: alpha", highlighted_labels := ["B"] },
    { question := "Câu 8: delta", highlighted_labels := ["B"] },
    { question := "Câu 9: epsilon", highlighted_labels := ["B"] }]

/-- C4 counterexample: exactly 1 of 3 submission questions content-pairs, so
the content-paired count (1) is below 50% of the submission length
(0.5 × 3 = 1.5), yet the code keeps content pairing — its real threshold is
`max(1, int(3 × 0.5)) = 1` and `1 < 1` fails — giving
`compared_questions = 1`, not `min(3, 3) = 3` as the claim requires. -/
theorem c4_counterexample :
    (contentPairs c4cSubs c4cKeys).length = 1 ∧
      c4cSubs.length = 3 ∧
      ((1 : ℚ) < (0.5 : ℚ) * 3) ∧
      (grade_quiz_files c4cSubs c4cKeys).compared_questions = 1 ∧
      min c4cSubs.length c4cKeys.length = 3 := by
  refine ⟨by decide, by decide, by norm_num, by decide, by decide⟩

/-- The per-pair classification as claim C5 words it: a key with other than
exactly one highlighted label is SKIPPED; else an empty submission highlight
set is UNANSWERED; else exactly the singleton of the key's label is CORRECT;
every other case (including multiple submission highlights) is WRONG, with
the submission's selected labels, the correct label and the merged per-label
option view recorded. -/
def specClassifyPair (idx : Nat) (student answer : QuizQuestionState) :
    PairOutcome :=
  if answer.highlighted_labels.length ≠ 1 then .skipped
  else
    let c := answer.highlighted_labels.headD ""
    if student.highlighted_labels.length = 0 then
      .unanswered
        { index := idx, question_text := normalize_question_text student.question,
          selected_labels := [], correct_label := c,
          option_states := mergedOptionStates student answer }
    else if student.highlighted_labels = [c] then .correctAnswer
    else
      .wrongAnswer
        { index := idx, question_text := normalize_question_text student.question,
          selected_labels := student.highlighted_labels, correct_label := c,
          option_states := mergedOptionStates student answer }

/-- C5: the grading loop's per-pair classification coincides, for every
pair of question states, with the claim's case description. -/
theorem c5_pair_classification (idx : Nat) (student answer : QuizQuestionState) :
    classifyPair idx student answer = specClassifyPair idx student answer := by
  unfold classifyPair specClassifyPair
  rcases ha : answer.highlighted_labels with _ | ⟨c, _ | ⟨c2, ct⟩⟩ <;>
    rcases hs : student.highlighted_labels with _ | ⟨l, _ | ⟨l2, lt⟩⟩ <;>
      simp [ha, hs, pick_single_label]

/-- The separator class `[\.:\)\-]` of the option-line patterns. -/
def optionSepChars : List Char := ['.', ':', ')', '-']

/-- `\s*(.+)$` after a consumed separator: greedy whitespace skip with the
single backtracking step regex matching performs when everything left is
whitespace (then `(.+)` takes the final character).  Faithful for
newline-free lines, which every call site guarantees. -/
def sepRest (cs : List Char) : Option (List Char) :=
  let t := cs.dropWhile Char.isWhitespace
  if t.isEmpty then
    match cs.getLast? with
    | some c => some [c]
    | none => none
  else some t

/-- `\s+(.+)$`: at least one whitespace character, then the group. -/
def wsRest : List Char → Option (List Char)
  | [] => none
  | c :: rest =>
    if c.isWhitespace then
      let t := rest.dropWhile Char.isWhitespace
      if t.isEmpty then
        match rest.getLast? with
        | some d => some [d]
        | none => none
      else some t
    else none

/-- `UPPER_OPTION_PATTERN = ^([A-D])(?:[\.:\)\-]\s*|\s+)(.+)$` (no
`re.IGNORECASE` flag), returning the label and group 2. -/
def matchUpperOption (cs : List Char) : Option (Char × List Char) :=
  match cs with
  | c :: rest =>
    if 'A' ≤ c ∧ c ≤ 'D' then
      match rest with
      | d :: rest2 =>
        if d ∈ optionSepChars then (sepRest rest2).map (fun t => (c, t))
        else wsRest rest |>.map (fun t => (c, t))
      | [] => none
    else none
  | [] => none

/-- `LOWER_OPTION_PATTERN = ^([a-d])[\.:\)\-]\s*(.+)$`: lowercase labels
require an explicit separator — a bare space does not match. -/
def matchLowerOption (cs : List Char) : Option (Char × List Char) :=
  match cs with
  | c :: rest =>
    if 'a' ≤ c ∧ c ≤ 'd' then
      match rest with
      | d :: rest2 =>
        if d ∈ optionSepChars then (sepRest rest2).map (fun t => (c, t))
        else none
      | [] => none
    else none
  | [] => none

/-- `match_option_line`: upper pattern first, then lower. -/
def match_option_line (s : String) : Option (Char × String) :=
  match matchUpperOption s.data with
  | some (c, t) => some (c, String.mk t)
  | none =>
    match matchLowerOption s.data with
    | some (c, t) => some (c, String.mk t)
    | none => none

theorem sepRest_isSome (cs : List Char) (h : cs ≠ []) :
    (sepRest cs).isSome = true := by
  unfold sepRest
  by_cases ht : (cs.dropWhile Char.isWhitespace).isEmpty
  · rw [if_pos ht]
    rcases ho : cs.getLast? with _ | c
    · exact absurd (List.getLast?_isSome.mpr h) (by rw [ho]; simp)
    · simp
  · rw [if_neg ht]
    simp

theorem wsRest_isSome (c : Char) (cs : List Char) (hc : c.isWhitespace = true)
    (h : cs ≠ []) : (wsRest (c :: cs)).isSome = true := by
  simp only [wsRest]
  rw [if_pos hc]
  by_cases ht : (cs.dropWhile Char.isWhitespace).isEmpty
  · rw [if_pos ht]
    rcases ho : cs.getLast? with _ | d
    · exact absurd (List.getLast?_isSome.mpr h) (by rw [ho]; simp)
    · simp
  · rw [if_neg ht]
    simp

/-- C8 counterexample: the claim calls option-line recognition
case-insensitive with a single space as an admissible separator, but the
lowercase pattern has no whitespace alternative and neither pattern carries
`re.IGNORECASE`, so `"a hello"` — lowercase label, single-space separator,
non-empty rest — is not recognized. -/
theorem c8_counterexample :
    match_option_line "a hello" = none ∧
      match_option_line "A hello" = some ('A', "hello") ∧
      match_option_line "a. hello" = some ('a', "hello") := by
  refine ⟨by decide, by decide, by decide⟩

/-- C8 (amended): a line starting with an uppercase label `A`–`D` followed by
one of `.`, `:`, `)`, `-` or whitespace, or a lowercase label `a`–`d`
followed by one of `.`, `:`, `)`, `-` (no space alternative for lowercase),
with non-empty remaining text, is recognized as an option line (stated for
newline-free lines, which all call sites guarantee). -/
theorem c8_option_line_amended (c sep : Char) (rest : List Char)
    (h : (c ∈ (['A', 'B', 'C', 'D'] : List Char) ∧
          (sep ∈ optionSepChars ∨ sep = ' ')) ∨
         (c ∈ (['a', 'b', 'c', 'd'] : List Char) ∧ sep ∈ optionSepChars))
    (hne : rest ≠ []) :
    (match_option_line (String.mk (c :: sep :: rest))).isSome = true := by
  rcases h with ⟨hc, hsep | hsep⟩ | ⟨hc, hsep⟩
  · obtain ⟨t, ht⟩ := Option.isSome_iff_exists.mp (sepRest_isSome rest hne)
    fin_cases hc <;> fin_cases hsep <;>
      simp [match_option_line, matchUpperOption, optionSepChars, ht]
  · subst hsep
    obtain ⟨t, ht⟩ := Option.isSome_iff_exists.mp (wsRest_isSome ' ' rest rfl hne)
    fin_cases hc <;>
      simp [match_option_line, matchUpperOption, optionSepChars, ht]
  · obtain ⟨t, ht⟩ := Option.isSome_iff_exists.mp (sepRest_isSome rest hne)
    fin_cases hc <;> fin_cases hsep <;>
      simp [match_option_line, matchUpperOption, matchLowerOption,
        optionSepChars, ht]

/-- Witness for the amended C8 theorem: `"A hello"` (space separator) is
recognized with label `A` and text `"hello"`. -/
theorem c8_option_line_amended_witness :
    (match_option_line (String.mk ('A' :: ' ' :: "hello".data))).isSome = true ∧
      match_option_line "A hello" = some ('A', "hello") :=
  ⟨c8_option_line_amended 'A' ' ' "hello".data (by decide) (by decide), by decide⟩

/-- Python `str.upper()` restricted to ASCII (the only labels reaching it
are `A`–`D`/`a`–`d`). -/
def pyUpperChar (c : Char) : Char :=
  if 'a' ≤ c ∧ c ≤ 'z' then Char.ofNat (c.toNat - 32) else c

/-- Branch `Chương\s*\d+\s*:` of `HEADER_NOISE_PATTERN` (anchored at both
ends). -/
def headerChuong (cs : List Char) : Bool :=
  match matchCaseInsensitive ['c', 'h', 'ư', 'ơ', 'n', 'g'] cs with
  | some r =>
    match matchDigits (dropWs r) with
    | some r2 => dropWs r2 == [':']
    | none => false
  | none => false

/-- Branch `LTTN\s*\d+\s*:?` of `HEADER_NOISE_PATTERN`. -/
def headerLTTN (cs : List Char) : Bool :=
  match matchCaseInsensitive ['l', 't', 't', 'n'] cs with
  | some r =>
    match matchDigits (dropWs r) with
    | some r2 => dropWs r2 == [] || dropWs r2 == [':']
    | none => false
  | none => false

/-- `HEADER_NOISE_PATTERN.match(text)` (the pattern is fully anchored). -/
def header_noise_match (s : String) : Bool :=
  headerChuong s.data || headerLTTN s.data

/-- `Downloaded\s+by` at the start of the character list (IGNORECASE). -/
def downloadedByAt (cs : List Char) : Bool :=
  match matchCaseInsensitive ['d', 'o', 'w', 'n', 'l', 'o', 'a', 'd', 'e', 'd'] cs with
  | some r =>
    hasWsHead r && (matchCaseInsensitive ['b', 'y'] (dropWs r)).isSome
  | none => false

/-- The literal e-mail alternative of `INLINE_NOISE_PATTERN`. -/
def binhMailAt (cs : List Char) : Bool :=
  (matchCaseInsensitive ['b', 'i', 'n', 'h', 'p', 'r', 'o', 'd', 'o', 't',
    'c', 'o', 'm', '@', 'g', 'm', 'a', 'i', 'l', '.', 'c', 'o', 'm'] cs).isSome

/-- The `l[O0]M[oO]ARcPSD\|?\d*` alternative of `INLINE_NOISE_PATTERN`
(IGNORECASE; the optional pipe and digits can match empty, so only the
ten-character core decides a hit). -/
def lomoAt (cs : List Char) : Bool :=
  match cs with
  | c1 :: c2 :: rest =>
    (pyLowerChar c1 == 'l') && (pyLowerChar c2 == 'o' || c2 == '0') &&
      (matchCaseInsensitive ['m', 'o', 'a', 'r', 'c', 'p', 's', 'd'] rest).isSome
  | _ => false

/-- `INLINE_NOISE_PATTERN.sub("", text)`: the pattern ends in `.*$`, so the
substitution truncates the text at the leftmost position where one of the
three alternatives matches. -/
def inlineNoiseScan : List Char → List Char
  | [] => []
  | c :: rest =>
    if downloadedByAt (c :: rest) || binhMailAt (c :: rest) || lomoAt (c :: rest)
    then []
    else c :: inlineNoiseScan rest

/-- `clean_text_noise`: inline-noise truncation, strip, whitespace collapse,
strip. -/
def clean_text_noise (s : String) : String :=
  pyStrip (collapseWs (pyStrip (String.mk (inlineNoiseScan s.data))))

/-- Branch `Downloaded\s+by.*` of `FULL_NOISE_PATTERN` (the trailing `.*$`
accepts any newline-free remainder). -/
def fullNoiseDownloaded (cs : List Char) : Bool :=
  downloadedByAt cs

/-- Branch `\s*\d+\s*/\s*\d+\s*` of `FULL_NOISE_PATTERN`. -/
def fullNoiseFraction (cs : List Char) : Bool :=
  match matchDigits (dropWs cs) with
  | some r =>
    match dropWs r with
    | '/' :: r2 =>
      match matchDigits (dropWs r2) with
      | some r3 => dropWs r3 == []
      | none => false
    | _ => false
  | none => false

/-- Branch `\s*Trang\s*\d+\s*` of `FULL_NOISE_PATTERN`. -/
def fullNoiseTrang (cs : List Char) : Bool :=
  match matchCaseInsensitive ['t', 'r', 'a', 'n', 'g'] (dropWs cs) with
  | some r =>
    match matchDigits (dropWs r) with
    | some r2 => dropWs r2 == []
    | none => false
  | none => false

/-- `FULL_NOISE_PATTERN.match(text)` (fully anchored). -/
def full_noise_match (s : String) : Bool :=
  fullNoiseDownloaded s.data || fullNoiseFraction s.data || fullNoiseTrang s.data

/-- `LineData`: one styled line from the external extractor. -/
structure LineData where
  text : String
  is_bold : Bool := false
  color_int : Nat := 0
  page_number : Int := 1
  x0 : ℚ := 0
  y0 : ℚ := 0
deriving DecidableEq

/-- `should_append_to_last_option`. -/
def should_append_to_last_option (last : OptionData) (line : LineData) : Bool :=
  if line.page_number ≠ last.page_number then false
  else if 26 < line.y0 - last.y0 then false
  else if 48 < line.x0 - last.x0 then false
  else if line.color_int ≠ 0 ∧ last.color_int ≠ 0 ∧ line.color_int ≠ last.color_int
    then false
  else if (match_option_line line.text).isSome || question_pattern_match line.text
    then false
  else true

/-- `should_append_to_question`. -/
def should_append_to_question (q : QuestionData) (line : LineData) : Bool :=
  if q.page_number = -1 then true
  else if line.page_number ≠ q.page_number then false
  else if 28 < line.y0 - q.y0 then false
  else if 64 < line.x0 - q.x0 then false
  else if (match_option_line line.text).isSome || header_noise_match line.text
    then false
  else true

/-- The per-label lookup of `order_options`'s dict comprehension
`{option.label: option}`: a Python dict keeps the last value written under
each key. -/
def findOptionLast (opts : List OptionData) (l : String) : Option OptionData :=
  opts.reverse.find? (fun o => o.label == l)

/-- `order_options`: reorder to `A, B, C, D` when all four labels are
present, else return the options unchanged. -/
def order_options (options : List OptionData) : List OptionData :=
  if (["A", "B", "C", "D"] : List String).all
      (fun l => (findOptionLast options l).isSome) then
    (["A", "B", "C", "D"] : List String).filterMap (fun l => findOptionLast options l)
  else options

/-- Finalization applied when a question is emitted: order the options, then
infer the answer. -/
def finalizeQuestion (q : QuestionData) : QuestionData :=
  finalize_answer { q with options := order_options q.options }

/-- The reconstruction state: emitted questions plus the single in-progress
accumulator. -/
structure ParseState where
  questions : List QuestionData
  current : Option QuestionData
deriving DecidableEq

/-- One iteration of the `parse_questions` line loop. -/
def parseStep (st : ParseState) (line : LineData) : ParseState :=
  let text := clean_text_noise line.text
  if text = "" || full_noise_match text then st
  else if header_noise_match text then st
  else if question_pattern_match text then
    let finished :=
      match st.current with
      | some cur =>
        if cur.options.length = 4 then st.questions ++ [finalizeQuestion cur]
        else st.questions
      | none => st.questions
    { questions := finished,
      current := some { question := text,
                        page_number := line.page_number,
                        x0 := line.x0, y0 := line.y0 } }
  else
    match match_option_line text with
    | some (labelChar, optText) =>
      let label := String.mk [pyUpperChar labelChar]
      if label ∈ (["A", "B", "C", "D"] : List String) then
        let cur :=
          match st.current with
          | some c => c
          | none => { question := "",
                      page_number := line.page_number,
                      x0 := line.x0, y0 := line.y0 }
        let newOpt : OptionData :=
          { label := label, text := repair_fragmented_text (pyStrip optText),
            emphasized := false, is_bold := line.is_bold,
            color_int := line.color_int, page_number := line.page_number,
            x0 := line.x0, y0 := line.y0 }
        let cur2 := { cur with options := cur.options ++ [newOpt] }
        if cur2.options.length = 4 then
          let cur3 := { cur2 with question := pyStrip cur2.question }
          if cur3.question ≠ "" then
            { questions := st.questions ++ [finalizeQuestion cur3], current := none }
          else { questions := st.questions, current := none }
        else { st with current := some cur2 }
      else st
    | none =>
      match st.current with
      | none =>
        { st with current := some { question := text,
                                    page_number := line.page_number,
                                    x0 := line.x0, y0 := line.y0 } }
      | some cur =>
        match cur.options.getLast? with
        | some lastOpt =>
          if should_append_to_last_option lastOpt line then
            let mergedOpt : OptionData :=
              { lastOpt with
                text := repair_fragmented_text (pyStrip (lastOpt.text ++ " " ++ text)),
                x0 := line.x0, y0 := line.y0 }
            { st with current := some { cur with options := cur.options.dropLast ++ [mergedOpt] } }
          else st
        | none =>
          if should_append_to_question cur line then
            { st with current := some { cur with
                                        question := pyStrip (cur.question ++ " " ++ text),
                                        x0 := line.x0, y0 := line.y0 } }
          else st

/-- `parse_questions`: fold the line loop, emit a complete in-progress
question at end of stream, deduplicate. -/
def parse_questions (lines : List LineData) : List QuestionData :=
  let st := lines.foldl parseStep { questions := [], current := none }
  let finalQs :=
    match st.current with
    | some cur =>
      if cur.options.length = 4 then st.questions ++ [finalizeQuestion cur]
      else st.questions
    | none => st.questions
  deduplicate_questions finalQs

/-- Lines driving `parse_questions` to emit a question with duplicate labels:
a second `A.` option is accepted, and `order_options` leaves the group
unchanged because label `D` is missing. -/
def c1Lines : List LineData :=
  [{ text := "Câu 1. Q?" }, { text := "A. one" }, { text := "A. two" },
    { text := "B. three" }, { text := "C. four" }]

/-- C1 counterexample: on `c1Lines` the reconstruction emits one question
whose four option labels are `A, A, B, C` — four options, but not labeled
`A, B, C, D`: nothing stops a duplicate label, and `order_options` returns
the group unchanged when a label is missing. -/
theorem c1_counterexample :
    (parse_questions c1Lines).map (fun q => q.options.map (fun o => o.label)) =
        [["A", "A", "B", "C"]] ∧
      (["A", "A", "B", "C"] : List String) ≠ ["A", "B", "C", "D"] := by
  exact ⟨by decide, by decide⟩

/-- What actually holds of every emitted question: exactly 4 options, and
whenever the four labels include each of `A, B, C, D`, they are exactly
`A, B, C, D` in order. -/
def wellFormedOut (q : QuestionData) : Prop :=
  q.options.length = 4 ∧
    ((∀ l ∈ (["A", "B", "C", "D"] : List String),
        l ∈ q.options.map (fun o => o.label)) →
      q.options.map (fun o => o.label) = ["A", "B", "C", "D"])

theorem findOptionLast_isSome_iff (opts : List OptionData) (l : String) :
    (findOptionLast opts l).isSome = true ↔
      l ∈ opts.map (fun o => o.label) := by
  unfold findOptionLast
  rw [List.find?_isSome]
  constructor
  · rintro ⟨o, ho, hp⟩
    have hol : o.label = l := by simpa using hp
    exact hol ▸ List.mem_map_of_mem _ (List.mem_reverse.mp ho)
  · intro hl
    rcases List.mem_map.mp hl with ⟨o, ho, rfl⟩
    exact ⟨o, List.mem_reverse.mpr ho, by simp⟩

theorem order_options_spec (opts : List OptionData) (hlen : opts.length = 4) :
    (order_options opts).length = 4 ∧
      ((∀ l ∈ (["A", "B", "C", "D"] : List String),
          l ∈ (order_options opts).map (fun o => o.label)) →
        (order_options opts).map (fun o => o.label) = ["A", "B", "C", "D"]) := by
  unfold order_options
  by_cases hall : ((["A", "B", "C", "D"] : List String).all
      (fun l => (findOptionLast opts l).isSome)) = true
  · rw [if_pos hall]
    simp only [List.all_eq_true] at hall
    obtain ⟨oA, hoA⟩ := Option.isSome_iff_exists.mp (hall "A" (by simp))
    obtain ⟨oB, hoB⟩ := Option.isSome_iff_exists.mp (hall "B" (by simp))
    obtain ⟨oC, hoC⟩ := Option.isSome_iff_exists.mp (hall "C" (by simp))
    obtain ⟨oD, hoD⟩ := Option.isSome_iff_exists.mp (hall "D" (by simp))
    have hA : oA.label = "A" := by
      have := List.find?_some (hoA ▸ rfl : opts.reverse.find?
        (fun o => o.label == "A") = some oA)
      simpa using this
    have hB : oB.label = "B" := by
      have := List.find?_some (hoB ▸ rfl : opts.reverse.find?
        (fun o => o.label == "B") = some oB)
      simpa using this
    have hC : oC.label = "C" := by
      have := List.find?_some (hoC ▸ rfl : opts.reverse.find?
        (fun o => o.label == "C") = some oC)
      simpa using this
    have hD : oD.label = "D" := by
      have := List.find?_some (hoD ▸ rfl : opts.reverse.find?
        (fun o => o.label == "D") = some oD)
      simpa using this
    constructor
    · simp [List.filterMap_cons, hoA, hoB, hoC, hoD]
    · intro _
      simp [List.filterMap_cons, hoA, hoB, hoC, hoD, hA, hB, hC, hD]
  · rw [if_neg hall]
    refine ⟨hlen, fun hcontra => absurd ?_ hall⟩
    simp only [List.all_eq_true]
    intro l hl
    exact (findOptionLast_isSome_iff opts l).mpr (hcontra l hl)

theorem finalize_answer_labels (q : QuestionData) :
    (finalize_answer q).options.map (fun o => o.label) =
      q.options.map (fun o => o.label) := by
  simp only [finalize_answer]
  split
  · simp [List.map_map, Function.comp]
  · split
    · simp [List.map_map, Function.comp]
    · simp [List.map_map, Function.comp]

theorem finalizeQuestion_ok (cur : QuestionData) (h : cur.options.length = 4) :
    wellFormedOut (finalizeQuestion cur) := by
  unfold finalizeQuestion wellFormedOut
  have hlab := finalize_answer_labels { cur with options := order_options cur.options }
  simp only at hlab
  rcases order_options_spec cur.options h with ⟨hlen, himp⟩
  constructor
  · have hl := congrArg List.length hlab
    simp only [List.length_map] at hl
    exact hl.trans hlen
  · intro hall
    rw [hlab] at hall ⊢
    exact himp hall

theorem parseStep_questions (st : ParseState) (line : LineData) :
    (parseStep st line).questions = st.questions ∨
      ∃ c, c.options.length = 4 ∧
        (parseStep st line).questions = st.questions ++ [finalizeQuestion c] := by
  simp only [parseStep]
  by_cases h1 : (decide (clean_text_noise line.text = "") ||
      full_noise_match (clean_text_noise line.text)) = true
  · rw [if_pos h1]; exact Or.inl rfl
  · rw [if_neg h1]
    by_cases h2 : header_noise_match (clean_text_noise line.text) = true
    · rw [if_pos h2]; exact Or.inl rfl
    · rw [if_neg h2]
      by_cases h3 : question_pattern_match (clean_text_noise line.text) = true
      · rw [if_pos h3]
        rcases hcur : st.current with _ | cur <;> dsimp only
        · exact Or.inl rfl
        · by_cases hlen : cur.options.length = 4
          · rw [if_pos hlen]; exact Or.inr ⟨cur, hlen, rfl⟩
          · rw [if_neg hlen]; exact Or.inl rfl
      · rw [if_neg h3]
        rcases hopt : match_option_line (clean_text_noise line.text) with
          _ | ⟨labelChar, optText⟩ <;> dsimp only
        · rcases hcur : st.current with _ | cur <;> dsimp only
          · exact Or.inl rfl
          · rcases hlast : cur.options.getLast? with _ | lastOpt <;> dsimp only
            · by_cases hap : should_append_to_question cur line = true
              · rw [if_pos hap]; exact Or.inl rfl
              · rw [if_neg hap]; exact Or.inl rfl
            · by_cases hap : should_append_to_last_option lastOpt line = true
              · rw [if_pos hap]; exact Or.inl rfl
              · rw [if_neg hap]; exact Or.inl rfl
        · by_cases hl : String.mk [pyUpperChar labelChar] ∈
              (["A", "B", "C", "D"] : List String)
          · rw [if_pos hl]
            split
            · split
              · rename_i hlen4 hne
                exact Or.inr ⟨_, hlen4, rfl⟩
              · exact Or.inl rfl
            · exact Or.inl rfl
          · rw [if_neg hl]; exact Or.inl rfl

theorem parseStep_preserves (st : ParseState) (line : LineData)
    (hst : ∀ q ∈ st.questions, wellFormedOut q) :
    ∀ q ∈ (parseStep st line).questions, wellFormedOut q := by
  rcases parseStep_questions st line with h | ⟨c, hc, h⟩
  · rw [h]; exact hst
  · rw [h]
    intro q hq
    rcases List.mem_append.mp hq with h1 | h2
    · exact hst q h1
    · rw [List.mem_singleton.mp h2]
      exact finalizeQuestion_ok c hc

theorem foldl_parse_preserves :
    ∀ (lines : List LineData) (st : ParseState),
      (∀ q ∈ st.questions, wellFormedOut q) →
      ∀ q ∈ (lines.foldl parseStep st).questions, wellFormedOut q := by
  intro lines
  induction lines with
  | nil => intro st h; exact h
  | cons l rest ih =>
    intro st h
    exact ih (parseStep st l) (parseStep_preserves st l h)

theorem mem_of_mem_dedupAux :
    ∀ (qs : List QuestionData) (seen : List (String × List (String × String)))
      (q : QuestionData), q ∈ dedupAux seen qs → q ∈ qs := by
  intro qs
  induction qs with
  | nil => intro seen q hq; simp [dedupAux] at hq
  | cons a rest ih =>
    intro seen q hq
    simp only [dedupAux] at hq
    by_cases ha : dedupKey a ∈ seen
    · rw [if_pos ha] at hq
      exact List.mem_cons_of_mem a (ih seen q hq)
    · rw [if_neg ha] at hq
      rcases List.mem_cons.mp hq with rfl | h2
      · exact List.mem_cons_self _ _
      · exact List.mem_cons_of_mem _ (ih _ q h2)

/-- C1 (amended): every question emitted by the reconstruction pass has
exactly 4 options, and whenever the four labels include each of
`A, B, C, D` they are exactly `A, B, C, D` in that order; duplicate labels
(e.g. `A, A, B, C`) can however slip through. -/
theorem c1_reconstruction_amended (lines : List LineData) (q : QuestionData)
    (hq : q ∈ parse_questions lines) : wellFormedOut q := by
  unfold parse_questions deduplicate_questions at hq
  have hmem := mem_of_mem_dedupAux _ [] q hq
  have hfold := foldl_parse_preserves lines { questions := [], current := none }
    (by intro p hp; simp at hp)
  rcases hcur : (lines.foldl parseStep
      { questions := [], current := none }).current with _ | cur <;>
    rw [hcur] at hmem <;> dsimp only at hmem
  · exact hfold q hmem
  · by_cases hlen : cur.options.length = 4
    · rw [if_pos hlen] at hmem
      rcases List.mem_append.mp hmem with h1 | h2
      · exact hfold q h1
      · rw [List.mem_singleton.mp h2]
        exact finalizeQuestion_ok cur hlen
    · rw [if_neg hlen] at hmem
      exact hfold q hmem

/-- Lines yielding one well-formed question, for the C1 witness. -/
def c1WitnessLines : List LineData :=
  [{ text := "Câu 1. Q?" }, { text := "A. a" }, { text := "B. b" },
    { text := "C. c" }, { text := "D. d" }]

/-- Witness for the amended C1 theorem, applied to the parsed question of
`c1WitnessLines`. -/
theorem c1_reconstruction_amended_witness :
    ((parse_questions c1WitnessLines).headD {}) ∈ parse_questions c1WitnessLines ∧
      wellFormedOut ((parse_questions c1WitnessLines).headD {}) :=
  ⟨by decide, c1_reconstruction_amended c1WitnessLines _ (by decide)⟩

end QuizPdf
